import Mathlib

/-!
Verification development for the kostanza cost-attribution engine.

This file gives a shallow embedding of the core of the repository —
the pricing-table matcher (internal/coster/table.go), the pricing
strategies and node-resource aggregation (internal/coster/strategy.go),
the buffering cost exporter (internal/coster/exporter.go), the dimension
mapper (internal/coster/mapper.go) and the calculation cycle of the
orchestration loop (internal/coster/coster.go) — and proves properties
of the embedded definitions.

Modelling conventions:
- Go `map[K]V` values are modelled as association lists with
  Go-assignment semantics (`goInsert` replaces the binding in place or
  appends a fresh one); iteration of independent per-entry updates is
  modelled as `List.map` over the entries.
- Go `float64` arithmetic on prices is modelled with exact rationals
  (`ℚ`); the conversion `int64(x)` is `truncQ` (truncation toward zero).
- `time.Duration` is an integer number of nanoseconds.
- Strings use the Lean `String` type; ordering of strings (Go
  `sort.Strings`, byte-wise lexicographic, which agrees with code-point
  order under UTF-8) is modelled by the lexicographic order on
  `String.data`.
- Fallible Go functions returning `(T, error)` are modelled with
  `Except CosterError T` or `Option`.
-/

namespace Kostanza

/-- Errors of the coster package: `ErrNoCostEntry` (table.go) and
`ErrSenselessInterval` (coster.go). -/
inductive CosterError where
  | errNoCostEntry
  | errSenselessInterval
deriving DecidableEq, Repr

/-- Association-list lookup with Go map semantics: the value under the
key, if present. -/
def goLookup {α β : Type} [DecidableEq α] : List (α × β) → α → Option β
  | [], _ => none
  | (k', v) :: rest, k => if k' = k then some v else goLookup rest k

/-- Association-list update with Go map-assignment semantics: replace
the binding in place if the key is present, otherwise append it. -/
def goInsert {α β : Type} [DecidableEq α] : List (α × β) → α → β → List (α × β)
  | [], k, v => [(k, v)]
  | (k', v') :: rest, k, v =>
      if k' = k then (k, v) :: rest else (k', v') :: goInsert rest k v

/-- Go `time.Hour` in nanoseconds. -/
def timeHour : Int := 3600000000000

/-- Go `time.Minute` in nanoseconds. -/
def timeMinute : Int := 60000000000

/-- Go `int64(x)` applied to a `float64`: truncation toward zero,
modelled on exact rationals. -/
def truncQ (x : ℚ) : Int := if 0 ≤ x then ⌊x⌋ else ⌈x⌉

/-- table.go: `Labels` is `map[string]string`, modelled as an
association list of key/value pairs. -/
abbrev Labels := List (String × String)

/-- table.go `Labels.Match`: true iff the provided key/value pair exists
among the available labels (the Go loop ranges over the map entries). -/
def Labels.Match (l : Labels) (key value : String) : Bool :=
  l.any fun kv => kv.1 == key && kv.2 == value

/-- table.go `CostTableEntry`: a label selector plus hourly rates in
micro-cents (Go `float64` fields, modelled as `ℚ`). -/
structure CostTableEntry where
  labels : Labels
  HourlyMemoryByteCostMicroCents : ℚ
  HourlyMilliCPUCostMicroCents : ℚ
  HourlyGPUCostMicroCents : ℚ
deriving DecidableEq, Repr

/-- table.go `CostTableEntry.Match`: true if all of the entry's labels
match some subset of the labels provided (with the special empty/empty
case spelled out exactly as in the source). -/
def CostTableEntry.Match (e : CostTableEntry) (labels : Labels) : Bool :=
  if labels.isEmpty && e.labels.isEmpty then true
  else e.labels.all fun kv => Labels.Match labels kv.1 kv.2

/-- table.go `CostTableEntry.CPUCostMicroCents`: cost of the provided
cpu over a duration, `int64(millicpu * durfrac * rate)`. -/
def CostTableEntry.CPUCostMicroCents (e : CostTableEntry) (millicpu : ℚ) (duration : Int) : Int :=
  let durfrac : ℚ := (duration : ℚ) / (timeHour : ℚ)
  truncQ (millicpu * durfrac * e.HourlyMilliCPUCostMicroCents)

/-- table.go `CostTableEntry.MemoryCostMicroCents`: cost of the provided
memory bytes over a duration. -/
def CostTableEntry.MemoryCostMicroCents (e : CostTableEntry) (membytes : ℚ) (duration : Int) : Int :=
  let durfrac : ℚ := (duration : ℚ) / (timeHour : ℚ)
  truncQ (membytes * durfrac * e.HourlyMemoryByteCostMicroCents)

/-- table.go `CostTableEntry.GPUCostMicroCents`: cost of the provided
number of gpus over a duration. -/
def CostTableEntry.GPUCostMicroCents (e : CostTableEntry) (gpus : ℚ) (duration : Int) : Int :=
  let durfrac : ℚ := (duration : ℚ) / (timeHour : ℚ)
  truncQ (gpus * durfrac * e.HourlyGPUCostMicroCents)

/-- table.go `CostTable`: an ordered collection of entries. -/
structure CostTable where
  Entries : List CostTableEntry
deriving DecidableEq, Repr

/-- The scan loop of table.go `CostTable.FindByLabels`: return the first
entry matching the labels, else `ErrNoCostEntry`. -/
def findEntryByLabels : List CostTableEntry → Labels → Except CosterError CostTableEntry
  | [], _ => Except.error CosterError.errNoCostEntry
  | e :: rest, labels =>
      if e.Match labels then Except.ok e else findEntryByLabels rest labels

/-- table.go `CostTable.FindByLabels`. -/
def CostTable.FindByLabels (ct : CostTable) (labels : Labels) : Except CosterError CostTableEntry :=
  findEntryByLabels ct.Entries labels

/-- k8s `resource.Quantity`, restricted to the two accessors the coster
calls: `Value()` (integer value, as used for memory and gpu) and
`MilliValue()` (thousandths, as used for cpu). The library relation
between the two accessors is not relied upon by the source, so the model
keeps them as independent integer observations. -/
structure Quantity where
  value : Int
  milliValue : Int
deriving DecidableEq, Repr

/-- The zero `resource.Quantity` (Go zero value, also what
`gpuCapacity` and the `ResourceList` accessors return for an absent
resource name). -/
def Quantity.zero : Quantity := { value := 0, milliValue := 0 }

/-- A k8s container, restricted to `Resources.Requests`
(a `ResourceList`, i.e. a map from resource name to quantity). -/
structure KContainer where
  Requests : List (String × Quantity)
deriving DecidableEq, Repr

/-- A k8s pod, restricted to the fields the coster reads:
`ObjectMeta.Name`, `Spec.NodeName`, `Spec.Containers` and
`Status.Phase`. -/
structure Pod where
  Name : String
  NodeName : String
  Containers : List KContainer
  Phase : String
deriving DecidableEq, Repr

/-- A k8s node, restricted to `ObjectMeta.Name`, `ObjectMeta.Labels`
and `Status.Capacity`. -/
structure Node where
  Name : String
  NodeLabels : Labels
  Capacity : List (String × Quantity)
deriving DecidableEq, Repr

/-- strategy.go resource name constant for cpu (`core_v1.ResourceCPU`). -/
def ResourceCPU : String := "cpu"

/-- strategy.go resource name constant for memory
(`core_v1.ResourceMemory`). -/
def ResourceMemory : String := "memory"

/-- strategy.go `ResourceGPU = core_v1.ResourceName("nvidia.com/gpu")`. -/
def ResourceGPU : String := "nvidia.com/gpu"

/-- coster.go `ResourceCostKind` values. -/
def ResourceCostCPU : String := "cpu"

/-- coster.go `ResourceCostMemory`. -/
def ResourceCostMemory : String := "memory"

/-- coster.go `ResourceCostGPU`. -/
def ResourceCostGPU : String := "gpu"

/-- coster.go `ResourceCostWeighted`. -/
def ResourceCostWeighted : String := "weighted"

/-- coster.go `ResourceCostNode`. -/
def ResourceCostNode : String := "node"

/-- strategy.go strategy name constants. -/
def StrategyNameCPU : String := "CPUPricingStrategy"

/-- strategy.go `StrategyNameMemory`. -/
def StrategyNameMemory : String := "MemoryPricingStrategy"

/-- strategy.go `StrategyNameNode`. -/
def StrategyNameNode : String := "NodePricingStrategy"

/-- strategy.go `StrategyNameWeighted`. -/
def StrategyNameWeighted : String := "WeightedPricingStrategy"

/-- strategy.go `StrategyNameGPU`. -/
def StrategyNameGPU : String := "GPUPricingStrategy"

/-- strategy.go `CostItem`: kind, strategy, micro-cents value and the
originating pod and/or node. -/
structure CostItem where
  Kind : String
  Strategy : String
  Value : Int
  Pod : Option Pod
  Node : Option Node
deriving DecidableEq, Repr

/-- strategy.go `sumPodResource`: total requests of `kind` over the
pod's containers; memory and gpu use `Value()`, anything else (cpu)
uses `MilliValue()`; a container lacking a request contributes zero. -/
def sumPodResource (p : Pod) (kind : String) : Int :=
  p.Containers.foldl
    (fun total c =>
      match goLookup c.Requests kind with
      | none => total
      | some res =>
          if kind == ResourceMemory then total + res.value
          else if kind == ResourceGPU then total + res.value
          else total + res.milliValue)
    0

/-- strategy.go `gpuCapacity` / `ResourceList.Cpu` / `ResourceList.Memory`:
look a resource name up in a capacity list, yielding the zero quantity
when absent (the client-go accessors never return nil). -/
def capacityGet (caps : List (String × Quantity)) (kind : String) : Quantity :=
  match goLookup caps kind with
  | some q => q
  | none => Quantity.zero

/-- strategy.go `buildNodeMap`: name-keyed map of the nodes. -/
def buildNodeMap (nodes : List Node) : List (String × Node) :=
  nodes.foldl (fun nm n => goInsert nm n.Name n) []

/-- strategy.go `allocatedNodeResources`: per-node summed requests and
advertised capacities. -/
structure AllocatedNodeResources where
  cpuUsed : Int
  memoryUsed : Int
  gpuUsed : Int
  cpuAvailable : Int
  gpuAvailable : Int
  memoryAvailable : Int
  node : Node
deriving DecidableEq, Repr

/-- strategy.go `allocatedNodeResources.CPUScale`: guarded division,
zero when `cpuUsed` is zero. -/
def AllocatedNodeResources.CPUScale (nr : AllocatedNodeResources) : ℚ :=
  if nr.cpuUsed = 0 then 0 else (nr.cpuAvailable : ℚ) / (nr.cpuUsed : ℚ)

/-- strategy.go `allocatedNodeResources.MemoryScale`. -/
def AllocatedNodeResources.MemoryScale (nr : AllocatedNodeResources) : ℚ :=
  if nr.memoryUsed = 0 then 0 else (nr.memoryAvailable : ℚ) / (nr.memoryUsed : ℚ)

/-- strategy.go `allocatedNodeResources.GPUScale`. -/
def AllocatedNodeResources.GPUScale (nr : AllocatedNodeResources) : ℚ :=
  if nr.gpuUsed = 0 then 0 else (nr.gpuAvailable : ℚ) / (nr.gpuUsed : ℚ)

/-- The first loop of strategy.go `buildNormalizedNodeResourceMap`:
seed the map with a zeroed record per node. -/
def nrmSeed (nodes : List Node) : List (String × AllocatedNodeResources) :=
  nodes.foldl
    (fun nrm n =>
      goInsert nrm n.Name
        { cpuUsed := 0, memoryUsed := 0, gpuUsed := 0, cpuAvailable := 0,
          gpuAvailable := 0, memoryAvailable := 0, node := n })
    []

/-- The second loop of strategy.go `buildNormalizedNodeResourceMap`:
add every pod's summed requests onto its node's record; a pod whose
node is absent from the map is skipped (with a warning in the source). -/
def nrmSumPods (nrm : List (String × AllocatedNodeResources)) (pods : List Pod) :
    List (String × AllocatedNodeResources) :=
  pods.foldl
    (fun nrm p =>
      match goLookup nrm p.NodeName with
      | none => nrm
      | some nr =>
          goInsert nrm p.NodeName
            { nr with
              cpuUsed := nr.cpuUsed + sumPodResource p ResourceCPU,
              memoryUsed := nr.memoryUsed + sumPodResource p ResourceMemory,
              gpuUsed := nr.gpuUsed + sumPodResource p ResourceGPU })
    nrm

/-- The body of the third loop of strategy.go
`buildNormalizedNodeResourceMap`: read the node's advertised capacities
and, independently per resource, default a zero summed usage to the
capacity. -/
def nrmFinalizeEntry (v : AllocatedNodeResources) : AllocatedNodeResources :=
  let v := { v with cpuAvailable := (capacityGet v.node.Capacity ResourceCPU).milliValue }
  let v := { v with memoryAvailable := (capacityGet v.node.Capacity ResourceMemory).value }
  let v := { v with gpuAvailable := (capacityGet v.node.Capacity ResourceGPU).value }
  let v := if v.cpuUsed = 0 then { v with cpuUsed := v.cpuAvailable } else v
  let v := if v.memoryUsed = 0 then { v with memoryUsed := v.memoryAvailable } else v
  let v := if v.gpuUsed = 0 then { v with gpuUsed := v.gpuAvailable } else v
  v

/-- strategy.go `buildNormalizedNodeResourceMap`: seed per node, sum pod
requests, then finalize every entry (the third Go loop mutates each
entry independently, modelled as a map over the association list). -/
def buildNormalizedNodeResourceMap (pods : List Pod) (nodes : List Node) :
    List (String × AllocatedNodeResources) :=
  (nrmSumPods (nrmSeed nodes) pods).map fun kv => (kv.1, nrmFinalizeEntry kv.2)

/-- The body of the pod loop of strategy.go `CPUPricingStrategy`:
skip the pod when its node is absent from the node map or the pricing
table has no entry for the node's labels, else emit one item. -/
def cpuItemForPod (table : CostTable) (duration : Int) (nm : List (String × Node)) (p : Pod) :
    Option CostItem :=
  let cpu := sumPodResource p ResourceCPU
  match goLookup nm p.NodeName with
  | none => none
  | some node =>
      match table.FindByLabels node.NodeLabels with
      | Except.error _ => none
      | Except.ok te =>
          some { Kind := ResourceCostCPU, Strategy := StrategyNameCPU,
                 Value := te.CPUCostMicroCents (cpu : ℚ) duration,
                 Pod := some p, Node := some node }

/-- strategy.go `CPUPricingStrategy`: one cost item per pod that has a
node and a pricing entry (the Go loop with `continue` is a filterMap). -/
def CPUPricingStrategy (table : CostTable) (duration : Int) (pods : List Pod)
    (nodes : List Node) : List CostItem :=
  pods.filterMap (cpuItemForPod table duration (buildNodeMap nodes))

/-- The body of the pod loop of strategy.go `MemoryPricingStrategy`. -/
def memoryItemForPod (table : CostTable) (duration : Int) (nm : List (String × Node)) (p : Pod) :
    Option CostItem :=
  let mem := sumPodResource p ResourceMemory
  match goLookup nm p.NodeName with
  | none => none
  | some node =>
      match table.FindByLabels node.NodeLabels with
      | Except.error _ => none
      | Except.ok te =>
          some { Kind := ResourceCostMemory, Strategy := StrategyNameMemory,
                 Value := te.MemoryCostMicroCents (mem : ℚ) duration,
                 Pod := some p, Node := some node }

/-- strategy.go `MemoryPricingStrategy`. -/
def MemoryPricingStrategy (table : CostTable) (duration : Int) (pods : List Pod)
    (nodes : List Node) : List CostItem :=
  pods.filterMap (memoryItemForPod table duration (buildNodeMap nodes))

/-- The body of the pod loop of strategy.go `GPUPricingStrategy`: a pod
with zero summed gpu request is skipped before the node-map check; then
the usual node and pricing-entry checks apply. -/
def gpuItemForPod (table : CostTable) (duration : Int) (nm : List (String × Node)) (p : Pod) :
    Option CostItem :=
  let gpu := sumPodResource p ResourceGPU
  if gpu = 0 then none
  else
    match goLookup nm p.NodeName with
    | none => none
    | some node =>
        match table.FindByLabels node.NodeLabels with
        | Except.error _ => none
        | Except.ok te =>
            some { Kind := ResourceCostGPU, Strategy := StrategyNameGPU,
                   Value := te.GPUCostMicroCents (gpu : ℚ) duration,
                   Pod := some p, Node := some node }

/-- strategy.go `GPUPricingStrategy`. -/
def GPUPricingStrategy (table : CostTable) (duration : Int) (pods : List Pod)
    (nodes : List Node) : List CostItem :=
  pods.filterMap (gpuItemForPod table duration (buildNodeMap nodes))

/-- The body of the pod loop of strategy.go `WeightedPricingStrategy`:
scale each summed request by the node's scale factor for that resource
and sum the three cost components. -/
def weightedItemForPod (table : CostTable) (duration : Int)
    (nrm : List (String × AllocatedNodeResources)) (p : Pod) : Option CostItem :=
  let cpu := sumPodResource p ResourceCPU
  let mem := sumPodResource p ResourceMemory
  let gpu := sumPodResource p ResourceGPU
  match goLookup nrm p.NodeName with
  | none => none
  | some nr =>
      match table.FindByLabels nr.node.NodeLabels with
      | Except.error _ => none
      | Except.ok te =>
          let cpucost := te.CPUCostMicroCents ((cpu : ℚ) * nr.CPUScale) duration
          let memcost := te.MemoryCostMicroCents ((mem : ℚ) * nr.MemoryScale) duration
          let gpucost := te.GPUCostMicroCents ((gpu : ℚ) * nr.GPUScale) duration
          some { Kind := ResourceCostWeighted, Strategy := StrategyNameWeighted,
                 Value := cpucost + memcost + gpucost,
                 Pod := some p, Node := some nr.node }

/-- strategy.go `WeightedPricingStrategy`. -/
def WeightedPricingStrategy (table : CostTable) (duration : Int) (pods : List Pod)
    (nodes : List Node) : List CostItem :=
  pods.filterMap (weightedItemForPod table duration (buildNormalizedNodeResourceMap pods nodes))

/-- The body of the node loop of strategy.go `NodePricingStrategy`: the
cost of a whole node from its advertised capacity (the client-go
capacity accessors never return nil, so the nil guards in the source
cannot fire and are not modelled). -/
def nodeItemForNode (table : CostTable) (duration : Int) (n : Node) : Option CostItem :=
  match table.FindByLabels n.NodeLabels with
  | Except.error _ => none
  | Except.ok te =>
      let c := capacityGet n.Capacity ResourceCPU
      let m := capacityGet n.Capacity ResourceMemory
      let memcost := te.MemoryCostMicroCents ((m.milliValue : ℚ) / 1000) duration
      let cpucost := te.CPUCostMicroCents (c.milliValue : ℚ) duration
      let g := capacityGet n.Capacity ResourceGPU
      let gpucost := te.GPUCostMicroCents ((g.value : ℚ)) duration
      some { Kind := ResourceCostNode, Strategy := StrategyNameNode,
             Value := memcost + cpucost + gpucost,
             Pod := none, Node := some n }

/-- strategy.go `NodePricingStrategy`. -/
def NodePricingStrategy (table : CostTable) (duration : Int) (_pods : List Pod)
    (nodes : List Node) : List CostItem :=
  nodes.filterMap (nodeItemForNode table duration)

/-- exporter.go `CostData`: the pubsub-exported cost record. `EndTime`
(a `time.Time`) is modelled as an integer timestamp. -/
structure CostData where
  Kind : String
  Strategy : String
  Value : Int
  Dimensions : List (String × String)
  EndTime : Int
deriving DecidableEq, Repr

/-- exporter.go `CostDataKey`: the grouping key, with the dimensions
canonicalized into a single string. -/
structure CostDataKey where
  Kind : String
  Strategy : String
  Dimensions : String
deriving DecidableEq, Repr

/-- Byte-wise lexicographic order on strings, as used by Go
`sort.Strings` (UTF-8 byte order agrees with code-point order). -/
def dataLe (a b : String) : Prop := a.data ≤ b.data

instance : DecidableRel dataLe := fun a b => inferInstanceAs (Decidable (a.data ≤ b.data))

/-- Go `strings.Join(l, ",")`. -/
def joinComma : List String → String
  | [] => ""
  | [s] => s
  | s :: t :: rest => s ++ "," ++ joinComma (t :: rest)

/-- exporter.go `CostData.key`: render each dimension as "k:v", sort
ascending, join with commas (Go sorts the slice in place; sorting by a
total order makes the result independent of map-iteration order, so the
sorted permutation is modelled with insertion sort). -/
def CostData.key (c : CostData) : CostDataKey :=
  let dims := List.insertionSort dataLe (c.Dimensions.map fun kv => kv.1 ++ ":" ++ kv.2)
  { Kind := c.Kind, Strategy := c.Strategy, Dimensions := joinComma dims }

/-- exporter.go `BufferingCostExporter.ExportCost`, acting on the
buffer under the exporter's lock: read the existing value under the
record's key (the Go map read yields the zero value, hence 0, when the
key is absent), add it onto the incoming record, store the incoming
record back under the key. -/
def BufferingCostExporter.ExportCost (buffer : List (CostDataKey × CostData)) (cd : CostData) :
    List (CostDataKey × CostData) :=
  let k := cd.key
  let v := match goLookup buffer k with
    | some existing => existing.Value
    | none => 0
  goInsert buffer k { cd with Value := cd.Value + v }

/-- Events of one call to exporter.go `BufferingCostExporter.flush`:
taking the mutex, forwarding a record to the wrapped exporter,
replacing the buffer by an empty map, releasing the mutex. -/
inductive FlushEvent where
  | lockMutex
  | forward (cd : CostData)
  | resetBuffer
  | unlockMutex
deriving DecidableEq, Repr

/-- The event trace of exporter.go `BufferingCostExporter.flush`: the
source takes the lock, forwards every buffered record to `next` inside
the critical section, then replaces the buffer and (by defer) releases
the lock. -/
def BufferingCostExporter.flushTrace (buffer : List (CostDataKey × CostData)) :
    List FlushEvent :=
  [FlushEvent.lockMutex] ++ (buffer.map fun kv => FlushEvent.forward kv.2)
    ++ [FlushEvent.resetBuffer, FlushEvent.unlockMutex]

/-- State left by exporter.go `BufferingCostExporter.flush`: the new
(empty) buffer and the records forwarded downstream, in buffer order. -/
def BufferingCostExporter.flushResult (buffer : List (CostDataKey × CostData)) :
    List (CostDataKey × CostData) × List CostData :=
  ([], buffer.map fun kv => kv.2)

/-- Count the forward-to-downstream events of a trace that happen while
the mutex is held; the second argument is whether the mutex is held
before the trace starts. -/
def forwardsHeld : List FlushEvent → Bool → Nat
  | [], _ => 0
  | FlushEvent.lockMutex :: r, _ => forwardsHeld r true
  | FlushEvent.unlockMutex :: r, _ => forwardsHeld r false
  | FlushEvent.forward _ :: r, held => (if held then 1 else 0) + forwardsHeld r held
  | FlushEvent.resetBuffer :: r, held => forwardsHeld r held

/-- mapper.go `Mapping`: destination dimension, source path expression
and default value. -/
structure Mapping where
  Default : String
  Destination : String
  Source : String
deriving DecidableEq, Repr

/-- mapper.go `Mapper`: an ordered list of mappings. -/
structure Mapper where
  Entries : List Mapping
deriving DecidableEq, Repr

/-- The rule loop of mapper.go `Mapper.MapData`. The jsonpath engine
(k8s.io/client-go/util/jsonpath) is an external collaborator, so the
evaluation of a source expression against the fixed source object is
abstracted as `ev : String → Option String`: `none` models a
`Parse`/`Execute` error (which aborts MapData), and a missing path
evaluates to `some ""` because the source sets `AllowMissingKeys(true)`.
Each rule stores its result under its destination, then replaces an
empty result by the rule's default, exactly as in the source. -/
def mapDataLoop (ev : String → Option String) :
    List Mapping → List (String × String) → Option (List (String × String))
  | [], res => some res
  | mp :: rest, res =>
      match ev mp.Source with
      | none => none
      | some s =>
          let res1 := goInsert res mp.Destination s
          let res2 :=
            if (goLookup res1 mp.Destination).getD "" == "" then
              goInsert res1 mp.Destination mp.Default
            else res1
          mapDataLoop ev rest res2

/-- mapper.go `Mapper.MapData`, starting from the empty result map. -/
def Mapper.MapData (m : Mapper) (ev : String → Option String) :
    Option (List (String × String)) :=
  mapDataLoop ev m.Entries []

/-- coster.go `core_v1.PodRunning`. -/
def PodRunning : String := "Running"

/-- filters.go `RunningPodFilter`. -/
def RunningPodFilter (p : Pod) : Bool := p.Phase == PodRunning

/-- filters.go `PodFilters.All`: conjunction of all filters. -/
def PodFiltersAll (pf : List (Pod → Bool)) (p : Pod) : Bool := pf.all fun f => f p

/-- coster.go `coster.applyPodFilters`: keep the pods every filter
accepts (the Go loop with `continue` is a filter). -/
def applyPodFilters (pf : List (Pod → Bool)) (pods : List Pod) : List Pod :=
  pods.filter (PodFiltersAll pf)

/-- The strategy list wired up by coster.go `NewKubernetesCoster`. -/
def costerStrategies : List (CostTable → Int → List Pod → List Node → List CostItem) :=
  [GPUPricingStrategy, CPUPricingStrategy, MemoryPricingStrategy,
   WeightedPricingStrategy, NodePricingStrategy]

/-- coster.go `coster`, restricted to the state the calculation cycle
reads and writes: the configured interval, the pricing table, and
`lastRun` (the Go zero `time.Time` is modelled as `none`). -/
structure Coster where
  interval : Int
  Pricing : CostTable
  lastRun : Option Int
deriving Repr

/-- coster.go `coster.calculate` at wall-clock time `now`, with the
pod/node inventory passed in (the listers are external collaborators).
First cycle: use the configured interval and record `now`. Later
cycles: the elapsed interval must be positive, else the cycle fails
with `ErrSenselessInterval` and `lastRun` is left unchanged (the source
returns before updating it). On success all five strategies run over
the filtered pods and their items are concatenated. -/
def Coster.calculate (c : Coster) (now : Int) (pods : List Pod) (nodes : List Node) :
    Except CosterError (List CostItem) × Coster :=
  let fpods := applyPodFilters [RunningPodFilter] pods
  match c.lastRun with
  | none =>
      let interval := c.interval
      let c1 : Coster := { c with lastRun := some now }
      (Except.ok (costerStrategies.foldl (fun cis s => cis ++ s c.Pricing interval fpods nodes) []), c1)
  | some last =>
      let interval := now - last
      if interval ≤ 0 then (Except.error CosterError.errSenselessInterval, c)
      else
        let c1 : Coster := { c with lastRun := some now }
        (Except.ok (costerStrategies.foldl (fun cis s => cis ++ s c.Pricing interval fpods nodes) []), c1)

/-- coster.go `coster.CalculateAndEmit`: on a calculation error, return
it without exporting anything; on success, for every cost item and
every configured exporter, map the item's dimensions (a mapping error
skips just that item/exporter pair) and export one `CostData` stamped
with the current time. Exporters are identified by index; the returned
list records every `ExportCost` call made, in order. The dimension
mapping is abstracted as `mapData` for the same reason as in
`mapDataLoop`. -/
def Coster.CalculateAndEmit (c : Coster) (mapData : CostItem → Option (List (String × String)))
    (numExporters : Nat) (now : Int) (pods : List Pod) (nodes : List Node) :
    Except CosterError Unit × Coster × List (Nat × CostData) :=
  match c.calculate now pods nodes with
  | (Except.error e, c1) => (Except.error e, c1, [])
  | (Except.ok costs, c1) =>
      let emitted := costs.flatMap fun ci =>
        (List.range numExporters).filterMap fun i =>
          match mapData ci with
          | none => none
          | some dims =>
              some (i, { Kind := ci.Kind, Strategy := ci.Strategy, Value := ci.Value,
                         Dimensions := dims, EndTime := now })
      (Except.ok (), c1, emitted)

/-- The calculation loop of coster.go `coster.Run`: on every tick run
`CalculateAndEmit`; an error is logged and the loop keeps running with
the coster state the failed cycle left behind. Returns the per-tick
outcome and emissions. -/
def calculationLoop (mapData : CostItem → Option (List (String × String)))
    (numExporters : Nat) (pods : List Pod) (nodes : List Node) :
    Coster → List Int → List (Except CosterError Unit × List (Nat × CostData))
  | _, [] => []
  | c, now :: rest =>
      match c.CalculateAndEmit mapData numExporters now pods nodes with
      | (r, c1, emitted) =>
          (r, emitted) :: calculationLoop mapData numExporters pods nodes c1 rest

/-- A sample pricing entry matching on one label. -/
def sampleEntryBroad : CostTableEntry :=
  { labels := [("region", "usa")],
    HourlyMemoryByteCostMicroCents := 1,
    HourlyMilliCPUCostMicroCents := 2,
    HourlyGPUCostMicroCents := 3 }

/-- A later, strictly more specific pricing entry. -/
def sampleEntrySpecific : CostTableEntry :=
  { labels := [("region", "usa"), ("size", "large")],
    HourlyMemoryByteCostMicroCents := 10,
    HourlyMilliCPUCostMicroCents := 20,
    HourlyGPUCostMicroCents := 30 }

/-- A two-entry table whose second entry is a superset match of the
first. -/
def sampleTable : CostTable := { Entries := [sampleEntryBroad, sampleEntrySpecific] }

/-- A sample pricing entry with cpu rate 6 micro-cents per
milli-cpu-hour. -/
def sampleEntryRate : CostTableEntry :=
  { labels := [],
    HourlyMemoryByteCostMicroCents := 0,
    HourlyMilliCPUCostMicroCents := 6,
    HourlyGPUCostMicroCents := 0 }

/-- A catch-all pricing entry (no labels) with distinct nonzero rates. -/
def sampleEntryAll : CostTableEntry :=
  { labels := [],
    HourlyMemoryByteCostMicroCents := 1,
    HourlyMilliCPUCostMicroCents := 2,
    HourlyGPUCostMicroCents := 3 }

/-- A one-entry catch-all table. -/
def sampleTableAll : CostTable := { Entries := [sampleEntryAll] }

/-- A sample node with 1 cpu (1000 milli) and 2000 bytes of memory and
no gpu capacity. -/
def sampleNodeN1 : Node :=
  { Name := "n1", NodeLabels := [],
    Capacity := [("cpu", { value := 1, milliValue := 1000 }),
                 ("memory", { value := 2000, milliValue := 2000000 })] }

/-- A sample running pod on node n1 requesting only 100 bytes of
memory. -/
def samplePodMem : Pod :=
  { Name := "p1", NodeName := "n1",
    Containers := [{ Requests := [("memory", { value := 100, milliValue := 100000 })] }],
    Phase := "Running" }

/-- The node-allocation record that `buildNormalizedNodeResourceMap`
produces for n1 from the sample pod: cpu usage defaulted to capacity,
memory usage kept at the real sum, gpu usage defaulted to the zero
capacity. -/
def sampleNRMV : AllocatedNodeResources :=
  { cpuUsed := 1000, memoryUsed := 100, gpuUsed := 0,
    cpuAvailable := 1000, gpuAvailable := 0, memoryAvailable := 2000,
    node := sampleNodeN1 }

/-- A pricing entry for gpu nodes: 7,000,000 micro-cents per gpu-hour. -/
def sampleEntryGPU : CostTableEntry :=
  { labels := [("gpu", "true")],
    HourlyMemoryByteCostMicroCents := 0,
    HourlyMilliCPUCostMicroCents := 0,
    HourlyGPUCostMicroCents := 7000000 }

/-- A one-entry gpu pricing table. -/
def sampleTableGPU : CostTable := { Entries := [sampleEntryGPU] }

/-- A gpu node advertising one gpu unit. -/
def sampleNodeGPU : Node :=
  { Name := "g1", NodeLabels := [("gpu", "true")],
    Capacity := [("cpu", { value := 4, milliValue := 4000 }),
                 ("memory", { value := 1000, milliValue := 1000000 }),
                 ("nvidia.com/gpu", { value := 1, milliValue := 1000 })] }

/-- A pod on the gpu node requesting one gpu unit. -/
def samplePodGPU : Pod :=
  { Name := "pg", NodeName := "g1",
    Containers := [{ Requests := [("nvidia.com/gpu", { value := 1, milliValue := 1000 })] }],
    Phase := "Running" }

/-- A pod on the gpu node requesting no gpu at all. -/
def samplePodNoGPU : Pod :=
  { Name := "pc", NodeName := "g1",
    Containers := [{ Requests := [("cpu", { value := 1, milliValue := 500 })] }],
    Phase := "Running" }

/-- A string with no comma character; the buffering exporter's key
serialization joins dimension strings with commas, so comma-free
dimension names and values make the serialization unambiguous. -/
def commaFree (s : String) : Prop := ',' ∉ s.data

instance : IsTotal String dataLe := ⟨fun a b => le_total a.data b.data⟩

instance : IsTrans String dataLe := ⟨fun _ _ _ h1 h2 => le_trans h1 h2⟩

instance : IsAntisymm String dataLe := ⟨fun _ _ h1 h2 => String.ext (le_antisymm h1 h2)⟩

/-- Dimension map of the first colliding record: key "" maps to
"a,:b", key ":a," maps to "b,:a". -/
def collideDimsA : List (String × String) := [("", "a,:b"), (":a,", "b,:a")]

/-- Dimension map of the second colliding record: the same two keys,
with the value under "" changed to "b,:a" and the value under ":a,"
unchanged. -/
def collideDimsB : List (String × String) := [("", "b,:a"), (":a,", "b,:a")]

/-- First colliding cost record (value 5). -/
def collideRecordA : CostData :=
  { Kind := ResourceCostWeighted, Strategy := "weighted", Value := 5,
    Dimensions := collideDimsA, EndTime := 1542000000 }

/-- Second colliding cost record (value 3): same kind and strategy,
same dimension keys, exactly one dimension value changed. -/
def collideRecordB : CostData :=
  { Kind := ResourceCostWeighted, Strategy := "weighted", Value := 3,
    Dimensions := collideDimsB, EndTime := 1542000005 }

/-- A sample record sitting in the flush buffer. -/
def sampleFlushRecord : CostData :=
  { Kind := ResourceCostCPU, Strategy := StrategyNameCPU, Value := 5,
    Dimensions := [("service", "foo")], EndTime := 1542000000 }

/-- The key of the sample flush record. -/
def sampleFlushKey : CostDataKey :=
  { Kind := ResourceCostCPU, Strategy := StrategyNameCPU, Dimensions := "service:foo" }

/-- The spec test's first mergeable record: weighted, value 5. -/
def mergeRecordA : CostData :=
  { Kind := ResourceCostWeighted, Strategy := "weighted", Value := 5,
    Dimensions := [("service", "foo"), ("component", "bar")], EndTime := 1542000000 }

/-- The spec test's second mergeable record: same kind, strategy and
dimension map (entries arriving in the other order), value 3, a later
timestamp. -/
def mergeRecordB : CostData :=
  { Kind := ResourceCostWeighted, Strategy := "weighted", Value := 3,
    Dimensions := [("component", "bar"), ("service", "foo")], EndTime := 1542000005 }

/-! Theorems. First, helper lemmas about the embedded definitions. -/


/-- The first-match scan succeeds with `e` exactly when the entry list
splits as a prefix of non-matching entries, then `e` (matching), then
anything. -/
theorem findEntryByLabels_ok_iff (entries : List CostTableEntry) (cand : Labels)
    (e : CostTableEntry) :
    findEntryByLabels entries cand = Except.ok e ↔
      ∃ l1 l2, entries = l1 ++ e :: l2 ∧ e.Match cand = true ∧
        ∀ e2 ∈ l1, e2.Match cand = false := by
  induction entries with
  | nil =>
      simp only [findEntryByLabels]
      constructor
      · intro h; cases h
      · rintro ⟨l1, l2, h, -, -⟩
        exact absurd h (by simp)
  | cons a rest ih =>
      simp only [findEntryByLabels]
      by_cases h : a.Match cand = true
      · rw [if_pos h]
        constructor
        · intro hok
          cases hok
          exact ⟨[], rest, rfl, h, by simp⟩
        · rintro ⟨l1, l2, hsplit, hm, hpre⟩
          cases l1 with
          | nil =>
              simp only [List.nil_append, List.cons.injEq] at hsplit
              rw [hsplit.1]
          | cons b l1t =>
              simp only [List.cons_append, List.cons.injEq] at hsplit
              have hb : b.Match cand = false := hpre b (by simp)
              rw [hsplit.1] at h
              rw [h] at hb
              cases hb
      · rw [if_neg h]
        rw [ih]
        constructor
        · rintro ⟨l1, l2, hsplit, hm, hpre⟩
          refine ⟨a :: l1, l2, by rw [hsplit]; rfl, hm, ?_⟩
          intro e2 he2
          rcases List.mem_cons.mp he2 with rfl | hmem
          · exact Bool.eq_false_iff.mpr h
          · exact hpre e2 hmem
        · rintro ⟨l1, l2, hsplit, hm, hpre⟩
          cases l1 with
          | nil =>
              simp only [List.nil_append, List.cons.injEq] at hsplit
              rw [hsplit.1] at h
              exact absurd hm h
          | cons b l1t =>
              simp only [List.cons_append, List.cons.injEq] at hsplit
              exact ⟨l1t, l2, hsplit.2, hm, fun e2 he2 => hpre e2 (List.mem_cons.mpr (Or.inr he2))⟩

/-- The first-match scan fails (necessarily with `ErrNoCostEntry`)
exactly when no entry matches. -/
theorem findEntryByLabels_error_iff (entries : List CostTableEntry) (cand : Labels) :
    findEntryByLabels entries cand = Except.error CosterError.errNoCostEntry ↔
      ∀ e ∈ entries, e.Match cand = false := by
  induction entries with
  | nil => simp [findEntryByLabels]
  | cons a rest ih =>
      simp only [findEntryByLabels]
      by_cases h : a.Match cand = true
      · rw [if_pos h]
        simp only [List.mem_cons]
        constructor
        · intro hok; cases hok
        · intro hall
          have := hall a (Or.inl rfl)
          rw [h] at this
          cases this
      · rw [if_neg h, ih]
        simp only [List.mem_cons]
        constructor
        · intro hall e2 he2
          rcases he2 with rfl | hmem
          · exact Bool.eq_false_iff.mpr h
          · exact hall e2 hmem
        · intro hall e2 he2
          exact hall e2 (Or.inr he2)

/-- Subset-match characterization of `CostTableEntry.Match`: the entry
matches iff each of its label pairs occurs in the candidate set. -/
theorem costTableEntry_match_iff (e : CostTableEntry) (cand : Labels) :
    e.Match cand = true ↔ ∀ kv ∈ e.labels, Labels.Match cand kv.1 kv.2 = true := by
  unfold CostTableEntry.Match
  by_cases h : (cand.isEmpty && e.labels.isEmpty) = true
  · rw [if_pos h]
    have hel : e.labels = [] := List.isEmpty_iff.mp (Bool.and_elim_right h)
    simp [hel]
  · rw [if_neg h]
    simp [List.all_eq_true]

/-- C1: `FindByLabels` returns the first entry in table order whose
labels are a subset of the candidate labels — an entry matches iff
every key/value pair of the entry is present with equal value in the
candidate, an entry with zero labels matches every candidate including
the empty one — and it fails with `ErrNoCostEntry` exactly when no
entry matches (in particular for the empty table); an earlier matching
entry wins over any later (possibly more specific) match because the
success decomposition forces every entry before the returned one to be
a non-match. -/
theorem C1_findByLabels_first_match_wins (ct : CostTable) (cand : Labels) :
    (∀ e : CostTableEntry, e.Match cand = true ↔
        ∀ kv ∈ e.labels, Labels.Match cand kv.1 kv.2 = true)
    ∧ (∀ e : CostTableEntry, e.labels = [] → e.Match cand = true)
    ∧ (∀ e : CostTableEntry, ct.FindByLabels cand = Except.ok e ↔
        ∃ l1 l2, ct.Entries = l1 ++ e :: l2 ∧ e.Match cand = true ∧
          ∀ e2 ∈ l1, e2.Match cand = false)
    ∧ (ct.FindByLabels cand = Except.error CosterError.errNoCostEntry ↔
        ∀ e ∈ ct.Entries, e.Match cand = false) := by
  refine ⟨fun e => costTableEntry_match_iff e cand, fun e he => ?_, fun e => ?_, ?_⟩
  · rw [costTableEntry_match_iff]
    simp [he]
  · exact findEntryByLabels_ok_iff ct.Entries cand e
  · exact findEntryByLabels_error_iff ct.Entries cand

/-- Witness for C1: on a candidate label set matched by both entries,
the earlier (less specific) entry wins. -/
theorem C1_witness :
    sampleTable.FindByLabels [("region", "usa"), ("size", "large")] =
      Except.ok sampleEntryBroad := by
  have h := (C1_findByLabels_first_match_wins sampleTable
    [("region", "usa"), ("size", "large")]).2.2.1 sampleEntryBroad
  exact h.mpr ⟨[], [sampleEntrySpecific], rfl, by decide, by simp⟩

/-- C5: each rate conversion function returns
quantity * (duration / 1 hour) * hourly rate, truncated toward zero to
an integer micro-cent value; for a nonnegative product the truncation
is the floor; in particular CPUCost(1000 milliCPU, 1 hour) with rate R
is 1000*R truncated, and CPUCost(500, 5 minutes) with nonnegative rate
R is the floor of 500 * R * 5/60. -/
theorem C5_rate_conversion_truncated (e : CostTableEntry) (q : ℚ) (d : Int) :
    (e.CPUCostMicroCents q d =
        truncQ (q * ((d : ℚ) / (timeHour : ℚ)) * e.HourlyMilliCPUCostMicroCents))
    ∧ (e.MemoryCostMicroCents q d =
        truncQ (q * ((d : ℚ) / (timeHour : ℚ)) * e.HourlyMemoryByteCostMicroCents))
    ∧ (e.GPUCostMicroCents q d =
        truncQ (q * ((d : ℚ) / (timeHour : ℚ)) * e.HourlyGPUCostMicroCents))
    ∧ (0 ≤ q * ((d : ℚ) / (timeHour : ℚ)) * e.HourlyMilliCPUCostMicroCents →
        e.CPUCostMicroCents q d =
          ⌊q * ((d : ℚ) / (timeHour : ℚ)) * e.HourlyMilliCPUCostMicroCents⌋)
    ∧ (e.CPUCostMicroCents 1000 timeHour = truncQ (1000 * e.HourlyMilliCPUCostMicroCents))
    ∧ (0 ≤ e.HourlyMilliCPUCostMicroCents →
        e.CPUCostMicroCents 500 (5 * timeMinute) =
          ⌊500 * e.HourlyMilliCPUCostMicroCents * (5 / 60 : ℚ)⌋) := by
  refine ⟨rfl, rfl, rfl, fun h => ?_, ?_, fun hr => ?_⟩
  · simp only [CostTableEntry.CPUCostMicroCents, truncQ]
    rw [if_pos h]
  · have hne : ((timeHour : Int) : ℚ) ≠ 0 := by norm_num [timeHour]
    simp [CostTableEntry.CPUCostMicroCents, div_self hne]
  · have hfrac : (((5 * timeMinute : Int) : ℚ) / (timeHour : ℚ)) = 5 / 60 := by
      norm_num [timeMinute, timeHour]
    simp only [CostTableEntry.CPUCostMicroCents, truncQ, hfrac]
    have hnn : 0 ≤ (500 : ℚ) * (5 / 60) * e.HourlyMilliCPUCostMicroCents := by
      have : (0 : ℚ) ≤ (500 : ℚ) * (5 / 60) := by norm_num
      exact mul_nonneg this hr
    rw [if_pos hnn]
    congr 1
    ring

/-- Witness for C5: 500 milli-cpu for 5 minutes at rate 6 costs
floor(500 * 6 * 5/60) = 250 micro-cents. -/
theorem C5_witness :
    sampleEntryRate.CPUCostMicroCents 500 (5 * timeMinute) = 250 := by
  have h := (C5_rate_conversion_truncated sampleEntryRate 500 (5 * timeMinute)).2.2.2.2.2
    (by norm_num [sampleEntryRate])
  rw [h]
  norm_num [sampleEntryRate]

/-- Lookup commutes with mapping over the values of an association
list. -/
theorem goLookup_map_value {α β γ : Type} [DecidableEq α] (f : β → γ)
    (l : List (α × β)) (k : α) :
    goLookup (l.map fun kv => (kv.1, f kv.2)) k = (goLookup l k).map f := by
  induction l with
  | nil => rfl
  | cons hd t ih =>
      obtain ⟨k', v⟩ := hd
      by_cases h : k' = k
      · simp [goLookup, h]
      · simp [goLookup, h, ih]

/-- The fields of a finalized node-allocation record in terms of the
pre-finalization record. -/
theorem nrmFinalizeEntry_fields (v0 : AllocatedNodeResources) :
    (nrmFinalizeEntry v0).node = v0.node
    ∧ (nrmFinalizeEntry v0).cpuAvailable = (capacityGet v0.node.Capacity ResourceCPU).milliValue
    ∧ (nrmFinalizeEntry v0).memoryAvailable = (capacityGet v0.node.Capacity ResourceMemory).value
    ∧ (nrmFinalizeEntry v0).gpuAvailable = (capacityGet v0.node.Capacity ResourceGPU).value
    ∧ (nrmFinalizeEntry v0).cpuUsed =
        (if v0.cpuUsed = 0 then (nrmFinalizeEntry v0).cpuAvailable else v0.cpuUsed)
    ∧ (nrmFinalizeEntry v0).memoryUsed =
        (if v0.memoryUsed = 0 then (nrmFinalizeEntry v0).memoryAvailable else v0.memoryUsed)
    ∧ (nrmFinalizeEntry v0).gpuUsed =
        (if v0.gpuUsed = 0 then (nrmFinalizeEntry v0).gpuAvailable else v0.gpuUsed) := by
  by_cases h1 : v0.cpuUsed = 0
  case pos =>
    by_cases h2 : v0.memoryUsed = 0
    case pos =>
      by_cases h3 : v0.gpuUsed = 0
      case pos => simp [nrmFinalizeEntry, h1, h2, h3]
      case neg => simp [nrmFinalizeEntry, h1, h2, h3]
    case neg =>
      by_cases h3 : v0.gpuUsed = 0
      case pos => simp [nrmFinalizeEntry, h1, h2, h3]
      case neg => simp [nrmFinalizeEntry, h1, h2, h3]
  case neg =>
    by_cases h2 : v0.memoryUsed = 0
    case pos =>
      by_cases h3 : v0.gpuUsed = 0
      case pos => simp [nrmFinalizeEntry, h1, h2, h3]
      case neg => simp [nrmFinalizeEntry, h1, h2, h3]
    case neg =>
      by_cases h3 : v0.gpuUsed = 0
      case pos => simp [nrmFinalizeEntry, h1, h2, h3]
      case neg => simp [nrmFinalizeEntry, h1, h2, h3]

/-- C4: in the node allocation built by `buildNormalizedNodeResourceMap`,
every entry is the finalization of the summed entry for the same node:
whenever the summed workload request for a resource is zero, the
recorded usage for that resource is set to the node's advertised
capacity for that resource, and this defaulting is applied
independently for each of cpu, memory and gpu (a resource with a
nonzero sum keeps its real sum). -/
theorem C4_zero_usage_defaults_to_capacity (pods : List Pod) (nodes : List Node)
    (name : String) (v : AllocatedNodeResources)
    (hv : goLookup (buildNormalizedNodeResourceMap pods nodes) name = some v) :
    ∃ v0, goLookup (nrmSumPods (nrmSeed nodes) pods) name = some v0
      ∧ v.node = v0.node
      ∧ v.cpuAvailable = (capacityGet v0.node.Capacity ResourceCPU).milliValue
      ∧ v.memoryAvailable = (capacityGet v0.node.Capacity ResourceMemory).value
      ∧ v.gpuAvailable = (capacityGet v0.node.Capacity ResourceGPU).value
      ∧ v.cpuUsed = (if v0.cpuUsed = 0 then v.cpuAvailable else v0.cpuUsed)
      ∧ v.memoryUsed = (if v0.memoryUsed = 0 then v.memoryAvailable else v0.memoryUsed)
      ∧ v.gpuUsed = (if v0.gpuUsed = 0 then v.gpuAvailable else v0.gpuUsed) := by
  unfold buildNormalizedNodeResourceMap at hv
  rw [goLookup_map_value] at hv
  cases h0 : goLookup (nrmSumPods (nrmSeed nodes) pods) name with
  | none => rw [h0] at hv; cases hv
  | some v0 =>
      rw [h0] at hv
      simp only [Option.map_some'] at hv
      injection hv with hv
      refine ⟨v0, rfl, ?_⟩
      rw [← hv]
      exact nrmFinalizeEntry_fields v0

/-- Witness for C4: for a node with 1000 milli-cpu and 2000 bytes of
capacity and a single pod requesting only 100 bytes of memory, the
finalized allocation keeps the real memory sum (100) but defaults the
cpu usage to the cpu capacity and the gpu usage to the (zero) gpu
capacity. -/
theorem C4_witness :
    ∃ v0, goLookup (nrmSumPods (nrmSeed [sampleNodeN1]) [samplePodMem]) "n1" = some v0
      ∧ sampleNRMV.node = v0.node
      ∧ sampleNRMV.cpuAvailable = (capacityGet v0.node.Capacity ResourceCPU).milliValue
      ∧ sampleNRMV.memoryAvailable = (capacityGet v0.node.Capacity ResourceMemory).value
      ∧ sampleNRMV.gpuAvailable = (capacityGet v0.node.Capacity ResourceGPU).value
      ∧ sampleNRMV.cpuUsed = (if v0.cpuUsed = 0 then sampleNRMV.cpuAvailable else v0.cpuUsed)
      ∧ sampleNRMV.memoryUsed =
          (if v0.memoryUsed = 0 then sampleNRMV.memoryAvailable else v0.memoryUsed)
      ∧ sampleNRMV.gpuUsed = (if v0.gpuUsed = 0 then sampleNRMV.gpuAvailable else v0.gpuUsed) :=
  C4_zero_usage_defaults_to_capacity [samplePodMem] [sampleNodeN1] "n1" sampleNRMV (by decide)

/-- The guarded scale factors agree with plain rational division of
capacity by usage (in `ℚ`, division by zero is zero, which is exactly
what the guard returns). -/
theorem scale_eq_div (nr : AllocatedNodeResources) :
    nr.CPUScale = (nr.cpuAvailable : ℚ) / (nr.cpuUsed : ℚ)
    ∧ nr.MemoryScale = (nr.memoryAvailable : ℚ) / (nr.memoryUsed : ℚ)
    ∧ nr.GPUScale = (nr.gpuAvailable : ℚ) / (nr.gpuUsed : ℚ) := by
  refine ⟨?_, ?_, ?_⟩
  · rw [AllocatedNodeResources.CPUScale]
    split_ifs with h
    · rw [h]; simp
    · rfl
  · rw [AllocatedNodeResources.MemoryScale]
    split_ifs with h
    · rw [h]; simp
    · rfl
  · rw [AllocatedNodeResources.GPUScale]
    split_ifs with h
    · rw [h]; simp
    · rfl

/-- C3: the weighted strategy is exactly one optional cost item per pod
in input order; a pod whose node is present in the normalized
node-resource map and has a matching pricing entry yields exactly one
item whose value is CPUCost(cpu * cpu-scale) + MemoryCost(mem *
mem-scale) + GPUCost(gpu * gpu-scale) with each scale the node's
available capacity divided by its recorded usage; a pod whose node is
missing from the map, or whose node has no pricing entry, is skipped. -/
theorem C3_weighted_strategy (table : CostTable) (duration : Int) (pods : List Pod)
    (nodes : List Node) :
    (WeightedPricingStrategy table duration pods nodes =
        pods.filterMap (weightedItemForPod table duration
          (buildNormalizedNodeResourceMap pods nodes)))
    ∧ (∀ p, goLookup (buildNormalizedNodeResourceMap pods nodes) p.NodeName = none →
        weightedItemForPod table duration (buildNormalizedNodeResourceMap pods nodes) p = none)
    ∧ (∀ p nr, goLookup (buildNormalizedNodeResourceMap pods nodes) p.NodeName = some nr →
        table.FindByLabels nr.node.NodeLabels = Except.error CosterError.errNoCostEntry →
        weightedItemForPod table duration (buildNormalizedNodeResourceMap pods nodes) p = none)
    ∧ (∀ p nr te, goLookup (buildNormalizedNodeResourceMap pods nodes) p.NodeName = some nr →
        table.FindByLabels nr.node.NodeLabels = Except.ok te →
        weightedItemForPod table duration (buildNormalizedNodeResourceMap pods nodes) p =
          some { Kind := ResourceCostWeighted, Strategy := StrategyNameWeighted,
                 Value :=
                   te.CPUCostMicroCents ((sumPodResource p ResourceCPU : ℚ) *
                     ((nr.cpuAvailable : ℚ) / (nr.cpuUsed : ℚ))) duration
                   + te.MemoryCostMicroCents ((sumPodResource p ResourceMemory : ℚ) *
                     ((nr.memoryAvailable : ℚ) / (nr.memoryUsed : ℚ))) duration
                   + te.GPUCostMicroCents ((sumPodResource p ResourceGPU : ℚ) *
                     ((nr.gpuAvailable : ℚ) / (nr.gpuUsed : ℚ))) duration,
                 Pod := some p, Node := some nr.node }) := by
  refine ⟨rfl, ?_, ?_, ?_⟩
  · intro p hmiss
    simp [weightedItemForPod, hmiss]
  · intro p nr hhit herr
    simp [weightedItemForPod, hhit, herr]
  · intro p nr te hhit hok
    obtain ⟨h1, h2, h3⟩ := scale_eq_div nr
    simp [weightedItemForPod, hhit, hok, h1, h2, h3]

/-- Witness for C3: the sample memory-only pod on node n1 with the
catch-all table yields exactly the described weighted item. -/
theorem C3_witness :
    weightedItemForPod sampleTableAll timeHour
        (buildNormalizedNodeResourceMap [samplePodMem] [sampleNodeN1]) samplePodMem =
      some { Kind := ResourceCostWeighted, Strategy := StrategyNameWeighted,
             Value :=
               sampleEntryAll.CPUCostMicroCents ((sumPodResource samplePodMem ResourceCPU : ℚ) *
                 ((sampleNRMV.cpuAvailable : ℚ) / (sampleNRMV.cpuUsed : ℚ))) timeHour
               + sampleEntryAll.MemoryCostMicroCents
                 ((sumPodResource samplePodMem ResourceMemory : ℚ) *
                   ((sampleNRMV.memoryAvailable : ℚ) / (sampleNRMV.memoryUsed : ℚ))) timeHour
               + sampleEntryAll.GPUCostMicroCents ((sumPodResource samplePodMem ResourceGPU : ℚ) *
                 ((sampleNRMV.gpuAvailable : ℚ) / (sampleNRMV.gpuUsed : ℚ))) timeHour,
             Pod := some samplePodMem, Node := some sampleNRMV.node } :=
  (C3_weighted_strategy sampleTableAll timeHour [samplePodMem] [sampleNodeN1]).2.2.2
    samplePodMem sampleNRMV sampleEntryAll (by decide) rfl

/-- The gpu cost of a zero quantity is zero. -/
theorem gpuCost_zero_quantity (te : CostTableEntry) (d : Int) :
    te.GPUCostMicroCents 0 d = 0 := by
  simp [CostTableEntry.GPUCostMicroCents, truncQ]

/-- C10: each scale-factor accessor is a guarded division returning 0
whenever the recorded usage for that resource is 0 (so the weighted
strategy never divides by zero); moreover the gpu scale is 0 whenever
the gpu capacity is 0, so on a node with zero gpu capacity every
costed pod's weighted item has exactly 0 as its gpu contribution. -/
theorem C10_guarded_scales (nr : AllocatedNodeResources) :
    ((nr.cpuUsed = 0 → nr.CPUScale = 0)
      ∧ (nr.memoryUsed = 0 → nr.MemoryScale = 0)
      ∧ (nr.gpuUsed = 0 → nr.GPUScale = 0)
      ∧ (nr.gpuAvailable = 0 → nr.GPUScale = 0))
    ∧ (∀ (table : CostTable) (duration : Int)
        (nrm : List (String × AllocatedNodeResources)) (p : Pod) (te : CostTableEntry),
        goLookup nrm p.NodeName = some nr →
        table.FindByLabels nr.node.NodeLabels = Except.ok te →
        nr.gpuAvailable = 0 →
        te.GPUCostMicroCents ((sumPodResource p ResourceGPU : ℚ) * nr.GPUScale) duration = 0
        ∧ weightedItemForPod table duration nrm p =
            some { Kind := ResourceCostWeighted, Strategy := StrategyNameWeighted,
                   Value :=
                     te.CPUCostMicroCents ((sumPodResource p ResourceCPU : ℚ) * nr.CPUScale)
                       duration
                     + te.MemoryCostMicroCents
                       ((sumPodResource p ResourceMemory : ℚ) * nr.MemoryScale) duration,
                   Pod := some p, Node := some nr.node }) := by
  have hguard : nr.gpuAvailable = 0 → nr.GPUScale = 0 := by
    intro h
    rw [AllocatedNodeResources.GPUScale]
    split_ifs with h2
    · rfl
    · rw [h]
      simp
  constructor
  · refine ⟨fun h => ?_, fun h => ?_, fun h => ?_, hguard⟩
    · rw [AllocatedNodeResources.CPUScale, if_pos h]
    · rw [AllocatedNodeResources.MemoryScale, if_pos h]
    · rw [AllocatedNodeResources.GPUScale, if_pos h]
  · intro table duration nrm p te hhit hok hga
    have hs : nr.GPUScale = 0 := hguard hga
    have hzero : te.GPUCostMicroCents ((sumPodResource p ResourceGPU : ℚ) * nr.GPUScale)
        duration = 0 := by
      rw [hs, mul_zero]
      exact gpuCost_zero_quantity te duration
    refine ⟨hzero, ?_⟩
    simp [weightedItemForPod, hhit, hok, hzero]

/-- Witness for C10: node n1 advertises no gpu capacity, and the
weighted item of the sample pod on it carries a zero gpu contribution. -/
theorem C10_witness :
    sampleEntryAll.GPUCostMicroCents
        ((sumPodResource samplePodMem ResourceGPU : ℚ) * sampleNRMV.GPUScale) timeHour = 0
    ∧ weightedItemForPod sampleTableAll timeHour
        (buildNormalizedNodeResourceMap [samplePodMem] [sampleNodeN1]) samplePodMem =
      some { Kind := ResourceCostWeighted, Strategy := StrategyNameWeighted,
             Value :=
               sampleEntryAll.CPUCostMicroCents
                 ((sumPodResource samplePodMem ResourceCPU : ℚ) * sampleNRMV.CPUScale) timeHour
               + sampleEntryAll.MemoryCostMicroCents
                 ((sumPodResource samplePodMem ResourceMemory : ℚ) * sampleNRMV.MemoryScale)
                 timeHour,
             Pod := some samplePodMem, Node := some sampleNRMV.node } :=
  (C10_guarded_scales sampleNRMV).2 sampleTableAll timeHour
    (buildNormalizedNodeResourceMap [samplePodMem] [sampleNodeN1]) samplePodMem sampleEntryAll
    (by decide) rfl rfl

/-- The gpu cost of one gpu unit for one hour is the hourly gpu rate of
the sample gpu entry, 7,000,000 micro-cents. -/
theorem gpuCost_one_hour_sample :
    sampleEntryGPU.GPUCostMicroCents 1 timeHour = 7000000 := by
  norm_num [CostTableEntry.GPUCostMicroCents, truncQ, timeHour, sampleEntryGPU]

/-- C6: the gpu pricing strategy emits no item for a pod whose summed
gpu request is zero (skipped before the node and pricing lookups, and
not an error), and the concrete snapshot of one pod requesting 1 gpu
unit plus one pod requesting none, on a node matching a pricing entry
of 7,000,000 micro-cents per gpu-hour, over one hour, yields exactly
one item valued 7,000,000 (for the gpu pod only). -/
theorem C6_gpu_strategy_zero_skip (table : CostTable) (duration : Int) (pods : List Pod)
    (nodes : List Node) :
    (GPUPricingStrategy table duration pods nodes =
        pods.filterMap (gpuItemForPod table duration (buildNodeMap nodes)))
    ∧ (∀ p, sumPodResource p ResourceGPU = 0 →
        gpuItemForPod table duration (buildNodeMap nodes) p = none)
    ∧ (GPUPricingStrategy sampleTableGPU timeHour [samplePodGPU, samplePodNoGPU]
        [sampleNodeGPU] =
        [{ Kind := ResourceCostGPU, Strategy := StrategyNameGPU, Value := 7000000,
           Pod := some samplePodGPU, Node := some sampleNodeGPU }]) := by
  refine ⟨rfl, fun p hq => ?_, ?_⟩
  · simp [gpuItemForPod, hq]
  · have hval := gpuCost_one_hour_sample
    have hgpu : sumPodResource samplePodGPU ResourceGPU = 1 := by decide
    have hnogpu : sumPodResource samplePodNoGPU ResourceGPU = 0 := by decide
    have hnm : goLookup (buildNodeMap [sampleNodeGPU]) samplePodGPU.NodeName =
        some sampleNodeGPU := by decide
    have hnm2 : goLookup (buildNodeMap [sampleNodeGPU]) samplePodNoGPU.NodeName =
        some sampleNodeGPU := by decide
    have hfind : sampleTableGPU.FindByLabels sampleNodeGPU.NodeLabels =
        Except.ok sampleEntryGPU := rfl
    simp [GPUPricingStrategy, gpuItemForPod, hgpu, hnogpu, hnm, hnm2, hfind, hval]

/-- Witness for C6: the zero-gpu pod is skipped by the gpu strategy. -/
theorem C6_witness :
    gpuItemForPod sampleTableGPU timeHour (buildNodeMap [sampleNodeGPU]) samplePodNoGPU =
      none :=
  (C6_gpu_strategy_zero_skip sampleTableGPU timeHour [samplePodGPU, samplePodNoGPU]
    [sampleNodeGPU]).2.1 samplePodNoGPU (by decide)

/-- Looking up the key just written finds the written value. -/
theorem goLookup_goInsert_self {α β : Type} [DecidableEq α] (l : List (α × β)) (k : α) (v : β) :
    goLookup (goInsert l k v) k = some v := by
  induction l with
  | nil => simp [goInsert, goLookup]
  | cons hd t ih =>
      obtain ⟨k', v'⟩ := hd
      by_cases h : k' = k
      · simp [goInsert, goLookup, h]
      · simp [goInsert, goLookup, h, ih]

/-- Writing one key leaves lookups of other keys unchanged. -/
theorem goLookup_goInsert_ne {α β : Type} [DecidableEq α] (l : List (α × β)) (k k' : α) (v : β)
    (h : k ≠ k') :
    goLookup (goInsert l k v) k' = goLookup l k' := by
  induction l with
  | nil => simp [goInsert, goLookup, h]
  | cons hd t ih =>
      obtain ⟨k0, v0⟩ := hd
      by_cases h0 : k0 = k
      · simp [goInsert, goLookup, h0, h]
      · simp [goInsert, goLookup, h0, ih]

/-- Writing a key twice is the same as writing it once with the second
value. -/
theorem goInsert_goInsert_same {α β : Type} [DecidableEq α] (l : List (α × β)) (k : α)
    (v w : β) :
    goInsert (goInsert l k v) k w = goInsert l k w := by
  induction l with
  | nil => simp [goInsert]
  | cons hd t ih =>
      obtain ⟨k0, v0⟩ := hd
      by_cases h0 : k0 = k
      · simp [goInsert, h0]
      · simp [goInsert, h0, ih]

/-- Membership in the key list after a Go map assignment. -/
theorem mem_keys_goInsert {α β : Type} [DecidableEq α] (l : List (α × β)) (k a : α) (v : β) :
    (a ∈ (goInsert l k v).map Prod.fst) ↔ a ∈ l.map Prod.fst ∨ a = k := by
  induction l with
  | nil => simp [goInsert]
  | cons hd t ih =>
      obtain ⟨k0, v0⟩ := hd
      by_cases h0 : k0 = k
      · subst h0
        simp [goInsert]
        tauto
      · simp [goInsert, h0, ih]
        tauto

/-- Go map assignment preserves key-list distinctness. -/
theorem nodup_keys_goInsert {α β : Type} [DecidableEq α] (l : List (α × β)) (k : α) (v : β)
    (h : (l.map Prod.fst).Nodup) : ((goInsert l k v).map Prod.fst).Nodup := by
  induction l with
  | nil => simp [goInsert]
  | cons hd t ih =>
      obtain ⟨k0, v0⟩ := hd
      simp only [List.map_cons, List.nodup_cons] at h
      by_cases h0 : k0 = k
      · subst h0
        simpa [goInsert] using h
      · simp only [goInsert, if_neg h0, List.map_cons, List.nodup_cons]
        constructor
        · intro hc
          rcases (mem_keys_goInsert t k k0 v).mp hc with hm | he
          · exact h.1 hm
          · exact h0 he
        · exact ih h.2

/-- If the left part of an appended list contains a hit, the scan of
the whole list returns it. -/
theorem find_append_first {α : Type} (p : α → Bool) (l1 l2 : List α) (a : α)
    (h : l1.find? p = some a) : (l1 ++ l2).find? p = some a := by
  induction l1 with
  | nil => cases h
  | cons b t ih =>
      by_cases hb : p b
      · simp_all [List.find?, hb]
      · have hb2 : p b = false := Bool.eq_false_iff.mpr hb
        simp only [List.find?, hb2] at h
        simp only [List.cons_append, List.find?, hb2]
        exact ih h

/-- If the left part of an appended list has no hit, the scan falls
through to the right part. -/
theorem find_append_second {α : Type} (p : α → Bool) (l1 l2 : List α)
    (h : l1.find? p = none) : (l1 ++ l2).find? p = l2.find? p := by
  induction l1 with
  | nil => rfl
  | cons b t ih =>
      by_cases hb : p b
      · simp [List.find?, hb] at h
      · have hb2 : p b = false := Bool.eq_false_iff.mpr hb
        simp only [List.find?, hb2] at h
        simp only [List.cons_append, List.find?, hb2]
        exact ih h

/-- Scanning a one-element list. -/
theorem find_singleton {α : Type} (p : α → Bool) (a : α) :
    ([a].find? p) = if p a then some a else none := by
  by_cases h : p a <;> simp [List.find?, h]

/-- One mapper rule amounts to a single Go map assignment of the rule's
result with the empty-string-to-default substitution applied. -/
theorem mapData_step_insert (res0 : List (String × String)) (dest deflt s : String) :
    (if (goLookup (goInsert res0 dest s) dest).getD "" == "" then
        goInsert (goInsert res0 dest s) dest deflt
      else goInsert res0 dest s)
    = goInsert res0 dest (if s == "" then deflt else s) := by
  rw [goLookup_goInsert_self]
  by_cases h : s == ""
  · rw [if_pos (by simpa using h), if_pos h, goInsert_goInsert_same]
  · rw [if_neg (by simpa using h), if_neg h]

/-- The mapper loop behaves, per destination, as the last matching rule
in evaluation order: if no rule of `entries` names destination `d`, the
accumulated map is untouched at `d`; otherwise the last rule naming `d`
determines the final value at `d` (its evaluated string, or its default
when that string is empty). -/
theorem mapDataLoop_lookup (ev : String → Option String) (entries : List Mapping)
    (res0 res : List (String × String)) (h : mapDataLoop ev entries res0 = some res)
    (d : String) :
    ((entries.reverse.find? fun e => e.Destination == d) = none →
        goLookup res d = goLookup res0 d)
    ∧ (∀ mp, (entries.reverse.find? fun e => e.Destination == d) = some mp →
        ∃ s, ev mp.Source = some s ∧
          goLookup res d = some (if s == "" then mp.Default else s)) := by
  induction entries generalizing res0 with
  | nil =>
      simp only [mapDataLoop, Option.some.injEq] at h
      subst h
      constructor
      · intro _; rfl
      · intro mp hmp
        simp at hmp
  | cons mp0 rest ih =>
      simp only [mapDataLoop] at h
      cases hev : ev mp0.Source with
      | none => rw [hev] at h; cases h
      | some s =>
          rw [hev] at h
          simp only [mapData_step_insert] at h
          have ihres := ih (goInsert res0 mp0.Destination (if s == "" then mp0.Default else s)) h
          have hrev : (mp0 :: rest).reverse = rest.reverse ++ [mp0] := by simp
          constructor
          · intro hnone
            rw [hrev] at hnone
            cases hfr : List.find? (fun e => e.Destination == d) rest.reverse with
            | some found =>
                rw [find_append_first _ _ _ _ hfr] at hnone
                cases hnone
            | none =>
                rw [find_append_second _ _ _ hfr, find_singleton] at hnone
                by_cases hd : (mp0.Destination == d) = true
                · rw [if_pos hd] at hnone; cases hnone
                · have hne : mp0.Destination ≠ d := by simpa using hd
                  rw [ihres.1 hfr, goLookup_goInsert_ne res0 _ _ _ hne]
          · intro mp hmp
            rw [hrev] at hmp
            cases hfr : List.find? (fun e => e.Destination == d) rest.reverse with
            | some found =>
                rw [find_append_first _ _ _ _ hfr] at hmp
                injection hmp with hmp
                subst hmp
                exact ihres.2 _ hfr
            | none =>
                rw [find_append_second _ _ _ hfr, find_singleton] at hmp
                by_cases hd : (mp0.Destination == d) = true
                · rw [if_pos hd] at hmp
                  injection hmp with hmp
                  subst hmp
                  have heq : mp0.Destination = d := by simpa using hd
                  refine ⟨s, hev, ?_⟩
                  rw [ihres.1 hfr, ← heq, goLookup_goInsert_self]
                · rw [if_neg hd] at hmp
                  cases hmp


/-- The destinations present in the mapper output are the accumulated
destinations plus the destinations of the processed rules. -/
theorem mapDataLoop_keys (ev : String → Option String) (entries : List Mapping)
    (res0 res : List (String × String)) (h : mapDataLoop ev entries res0 = some res)
    (d : String) :
    d ∈ res.map Prod.fst ↔ d ∈ res0.map Prod.fst ∨ ∃ mp ∈ entries, mp.Destination = d := by
  induction entries generalizing res0 with
  | nil =>
      simp only [mapDataLoop, Option.some.injEq] at h
      subst h
      simp
  | cons mp0 rest ih =>
      simp only [mapDataLoop] at h
      cases hev : ev mp0.Source with
      | none => rw [hev] at h; cases h
      | some s =>
          rw [hev] at h
          simp only [mapData_step_insert] at h
          rw [ih _ h, mem_keys_goInsert]
          simp only [List.mem_cons]
          constructor
          · rintro ((hm | he) | ⟨mp, hmp, hd⟩)
            · exact Or.inl hm
            · exact Or.inr ⟨mp0, Or.inl rfl, he.symm⟩
            · exact Or.inr ⟨mp, Or.inr hmp, hd⟩
          · rintro (hm | ⟨mp, (rfl | hmp), hd⟩)
            · exact Or.inl (Or.inl hm)
            · exact Or.inl (Or.inr hd.symm)
            · exact Or.inr ⟨mp, hmp, hd⟩

/-- The mapper loop preserves distinctness of destinations. -/
theorem mapDataLoop_nodup (ev : String → Option String) (entries : List Mapping)
    (res0 res : List (String × String)) (h : mapDataLoop ev entries res0 = some res)
    (h0 : (res0.map Prod.fst).Nodup) : (res.map Prod.fst).Nodup := by
  induction entries generalizing res0 with
  | nil =>
      simp only [mapDataLoop, Option.some.injEq] at h
      subst h
      exact h0
  | cons mp0 rest ih =>
      simp only [mapDataLoop] at h
      cases hev : ev mp0.Source with
      | none => rw [hev] at h; cases h
      | some s =>
          rw [hev] at h
          simp only [mapData_step_insert] at h
          exact ih _ h (nodup_keys_goInsert _ _ _ h0)

/-- C9: whenever `MapData` succeeds, the output map has exactly one
entry per distinct rule destination (its key list is duplicate-free and
a destination is present iff some rule names it); the value under each
destination comes from the last rule naming it (last-write-wins), and
is that rule's evaluated string, or the rule's configured default when
the evaluation yields the empty string (which is how a missing path
shows up — never as an error). -/
theorem C9_mapData_defaults_last_write_wins (ev : String → Option String) (m : Mapper)
    (res : List (String × String)) (h : m.MapData ev = some res) :
    (res.map Prod.fst).Nodup
    ∧ (∀ d : String, d ∈ res.map Prod.fst ↔ ∃ mp ∈ m.Entries, mp.Destination = d)
    ∧ (∀ d mp, (m.Entries.reverse.find? fun e => e.Destination == d) = some mp →
        ∃ s, ev mp.Source = some s ∧
          goLookup res d = some (if s == "" then mp.Default else s)) := by
  refine ⟨mapDataLoop_nodup ev m.Entries [] res h (by simp), fun d => ?_, fun d mp hmp => ?_⟩
  · rw [mapDataLoop_keys ev m.Entries [] res h d]
    simp
  · exact (mapDataLoop_lookup ev m.Entries [] res h d).2 mp hmp

/-- A sample evaluator: the service path is missing (empty string), the
component paths yield values, the second rule for the same destination
yields "b". -/
def sampleEval : String → Option String :=
  fun src =>
    if src == "missing.path" then some ""
    else if src == "path.one" then some "a"
    else if src == "path.two" then some "b"
    else none

/-- A rule whose source path is missing, with default "unknown". -/
def sampleMappingService : Mapping :=
  { Default := "unknown", Destination := "service", Source := "missing.path" }

/-- A first rule for destination comp. -/
def sampleMappingCompA : Mapping :=
  { Default := "none", Destination := "comp", Source := "path.one" }

/-- A second, later rule for the same destination comp. -/
def sampleMappingCompB : Mapping :=
  { Default := "none", Destination := "comp", Source := "path.two" }

/-- A sample mapper with a missing-path rule and a duplicated
destination. -/
def sampleMapper : Mapper :=
  { Entries := [sampleMappingService, sampleMappingCompA, sampleMappingCompB] }

/-- Witness for C9: the missing path resolves to the default "unknown",
and for the duplicated destination the later rule wins. -/
theorem C9_witness :
    (∃ s, sampleEval sampleMappingService.Source = some s ∧
      goLookup [("service", "unknown"), ("comp", "b")] "service" =
        some (if s == "" then sampleMappingService.Default else s))
    ∧ (∃ s, sampleEval sampleMappingCompB.Source = some s ∧
      goLookup [("service", "unknown"), ("comp", "b")] "comp" =
        some (if s == "" then sampleMappingCompB.Default else s)) :=
  ⟨(C9_mapData_defaults_last_write_wins sampleEval sampleMapper
      [("service", "unknown"), ("comp", "b")] (by decide)).2.2 "service"
      sampleMappingService (by decide),
   (C9_mapData_defaults_last_write_wins sampleEval sampleMapper
      [("service", "unknown"), ("comp", "b")] (by decide)).2.2 "comp"
      sampleMappingCompB (by decide)⟩

/-- C8: on a cycle after the first (`lastRun` set), a non-positive
computed elapsed duration makes `calculate` fail with
`ErrSenselessInterval` and produce no cost items (leaving `lastRun`
unchanged), `CalculateAndEmit` then exports nothing to any exporter for
that tick, and the calculation loop records the error and keeps running
on the remaining ticks. -/
theorem C8_senseless_interval_cycle (c : Coster) (now last : Int) (pods : List Pod)
    (nodes : List Node) (mapData : CostItem → Option (List (String × String)))
    (numExporters : Nat) (hlast : c.lastRun = some last) (hreg : now - last ≤ 0) :
    (c.calculate now pods nodes = (Except.error CosterError.errSenselessInterval, c))
    ∧ (c.CalculateAndEmit mapData numExporters now pods nodes =
        (Except.error CosterError.errSenselessInterval, c, []))
    ∧ (∀ rest, calculationLoop mapData numExporters pods nodes c (now :: rest) =
        (Except.error CosterError.errSenselessInterval, ([] : List (Nat × CostData))) ::
          calculationLoop mapData numExporters pods nodes c rest) := by
  have hcalc : c.calculate now pods nodes =
      (Except.error CosterError.errSenselessInterval, c) := by
    unfold Coster.calculate
    rw [hlast]
    simp only [if_pos hreg]
  have hemit : c.CalculateAndEmit mapData numExporters now pods nodes =
      (Except.error CosterError.errSenselessInterval, c, []) := by
    unfold Coster.CalculateAndEmit
    rw [hcalc]
  refine ⟨hcalc, hemit, fun rest => ?_⟩
  show (match c.CalculateAndEmit mapData numExporters now pods nodes with
    | (r, c1, emitted) => (r, emitted) :: calculationLoop mapData numExporters pods nodes c1 rest)
    = _
  rw [hemit]

/-- A coster one tick past its first cycle. -/
def sampleCoster : Coster :=
  { interval := 5, Pricing := sampleTableAll, lastRun := some 100 }

/-- Witness for C8: at wall-clock time 100 with `lastRun = 100` the
elapsed duration is 0, the cycle aborts without exporting, and the loop
goes on to the next tick. -/
theorem C8_witness :
    (sampleCoster.calculate 100 [samplePodMem] [sampleNodeN1] =
        (Except.error CosterError.errSenselessInterval, sampleCoster))
    ∧ (sampleCoster.CalculateAndEmit (fun _ => some []) 2 100 [samplePodMem] [sampleNodeN1] =
        (Except.error CosterError.errSenselessInterval, sampleCoster, []))
    ∧ (∀ rest, calculationLoop (fun _ => some []) 2 [samplePodMem] [sampleNodeN1]
        sampleCoster (100 :: rest) =
        (Except.error CosterError.errSenselessInterval, ([] : List (Nat × CostData))) ::
          calculationLoop (fun _ => some []) 2 [samplePodMem] [sampleNodeN1] sampleCoster rest) :=
  C8_senseless_interval_cycle sampleCoster 100 100 [samplePodMem] [sampleNodeN1]
    (fun _ => some []) 2 rfl (by decide)

/-- Every forward event of a forward-only trace segment counts as held
when the mutex is held on entry. -/
theorem forwardsHeld_forward_segment (l : List (CostDataKey × CostData))
    (rest : List FlushEvent) :
    forwardsHeld ((l.map fun kv => FlushEvent.forward kv.2) ++ rest) true =
      l.length + forwardsHeld rest true := by
  induction l with
  | nil => simp
  | cons a t ih =>
      have hstep : forwardsHeld (FlushEvent.forward a.2 ::
          ((t.map fun kv => FlushEvent.forward kv.2) ++ rest)) true =
          1 + forwardsHeld ((t.map fun kv => FlushEvent.forward kv.2) ++ rest) true := by
        simp [forwardsHeld]
      simp only [List.map_cons, List.cons_append]
      rw [hstep, ih, List.length_cons]
      omega

/-- Counterexample to C7 as stated: flushing a one-record buffer
forwards that record to the downstream exporter strictly between
taking and releasing the mutex (one forward occurs with the lock held,
not zero), and the buffer is replaced only after the forwarding, also
inside the critical section. -/
theorem C7_counterexample :
    BufferingCostExporter.flushTrace [(sampleFlushKey, sampleFlushRecord)] =
      [FlushEvent.lockMutex, FlushEvent.forward sampleFlushRecord, FlushEvent.resetBuffer,
       FlushEvent.unlockMutex]
    ∧ forwardsHeld
        (BufferingCostExporter.flushTrace [(sampleFlushKey, sampleFlushRecord)]) false = 1
    ∧ ¬ (forwardsHeld
        (BufferingCostExporter.flushTrace [(sampleFlushKey, sampleFlushRecord)]) false = 0) := by
  refine ⟨rfl, rfl, ?_⟩
  intro h
  cases h

/-- C7 (amended): on each flush tick the exporter, while holding the
very lock that also guards `ExportCost` (so flushing and ingestion are
mutually exclusive), forwards every previously buffered record to the
downstream exporter and only then replaces the buffer with an empty
one, still inside the critical section — every downstream forward
happens with the lock held, and the flush leaves an empty buffer having
forwarded exactly the buffered records in order. -/
theorem C7_flush_forwards_inside_lock (buffer : List (CostDataKey × CostData)) :
    BufferingCostExporter.flushTrace buffer =
      [FlushEvent.lockMutex] ++ (buffer.map fun kv => FlushEvent.forward kv.2)
        ++ [FlushEvent.resetBuffer, FlushEvent.unlockMutex]
    ∧ forwardsHeld (BufferingCostExporter.flushTrace buffer) false = buffer.length
    ∧ BufferingCostExporter.flushResult buffer = ([], buffer.map fun kv => kv.2) := by
  refine ⟨rfl, ?_, rfl⟩
  have h1 : forwardsHeld (BufferingCostExporter.flushTrace buffer) false =
      forwardsHeld ((buffer.map fun kv => FlushEvent.forward kv.2)
        ++ [FlushEvent.resetBuffer, FlushEvent.unlockMutex]) true := by
    simp [BufferingCostExporter.flushTrace, forwardsHeld]
  rw [h1, forwardsHeld_forward_segment]
  simp [forwardsHeld]

/-- Assigning an absent key appends the binding. -/
theorem goInsert_append_of_absent {α β : Type} [DecidableEq α] (l : List (α × β)) (k : α)
    (v : β) (h : goLookup l k = none) : goInsert l k v = l ++ [(k, v)] := by
  induction l with
  | nil => rfl
  | cons hd t ih =>
      obtain ⟨k0, v0⟩ := hd
      by_cases h0 : k0 = k
      · simp [goLookup, h0] at h
      · simp only [goLookup, if_neg h0] at h
        simp [goInsert, h0, ih h]

/-- Looking a key up after appending its binding to a list that lacked
it. -/
theorem goLookup_append_singleton_self {α β : Type} [DecidableEq α] (l : List (α × β))
    (k : α) (v : β) (h : goLookup l k = none) : goLookup (l ++ [(k, v)]) k = some v := by
  induction l with
  | nil => simp [goLookup]
  | cons hd t ih =>
      obtain ⟨k0, v0⟩ := hd
      by_cases h0 : k0 = k
      · simp [goLookup, h0] at h
      · simp only [goLookup, if_neg h0] at h
        simp [goLookup, h0, ih h]

/-- Reassigning the unique appended binding replaces it in place. -/
theorem goInsert_append_singleton {α β : Type} [DecidableEq α] (l : List (α × β)) (k : α)
    (w u : β) (h : goLookup l k = none) : goInsert (l ++ [(k, w)]) k u = l ++ [(k, u)] := by
  induction l with
  | nil => simp [goInsert]
  | cons hd t ih =>
      obtain ⟨k0, v0⟩ := hd
      by_cases h0 : k0 = k
      · simp [goLookup, h0] at h
      · simp only [goLookup, if_neg h0] at h
        simp [goInsert, h0, ih h]

/-- Exporting a record whose key has no buffered entry seeds the bucket
with the record as-is (the Go map read yields value 0, and adding 0
leaves the record unchanged). -/
theorem exportCost_seed (buffer : List (CostDataKey × CostData)) (cd : CostData)
    (h : goLookup buffer cd.key = none) :
    BufferingCostExporter.ExportCost buffer cd = buffer ++ [(cd.key, cd)] := by
  simp only [BufferingCostExporter.ExportCost, h, add_zero]
  exact goInsert_append_of_absent buffer cd.key cd h

/-- Records with equal kind, equal strategy and dimension maps equal up
to order have equal buffering keys: sorting the rendered dimensions
erases the arrival order of the map entries. -/
theorem costDataKey_eq_of_perm (c1 c2 : CostData) (hk : c1.Kind = c2.Kind)
    (hs : c1.Strategy = c2.Strategy) (hd : List.Perm c1.Dimensions c2.Dimensions) :
    c1.key = c2.key := by
  unfold CostData.key
  have hperm : List.Perm
      (c1.Dimensions.map fun kv => kv.1 ++ ":" ++ kv.2)
      (c2.Dimensions.map fun kv => kv.1 ++ ":" ++ kv.2) := hd.map _
  have hsorted : List.insertionSort dataLe (c1.Dimensions.map fun kv => kv.1 ++ ":" ++ kv.2)
      = List.insertionSort dataLe (c2.Dimensions.map fun kv => kv.1 ++ ":" ++ kv.2) := by
    have hp := (List.perm_insertionSort dataLe
        (c1.Dimensions.map fun kv => kv.1 ++ ":" ++ kv.2)).trans
      (hperm.trans (List.perm_insertionSort dataLe
        (c2.Dimensions.map fun kv => kv.1 ++ ":" ++ kv.2)).symm)
    have hs1 := List.sorted_insertionSort dataLe
      (c1.Dimensions.map fun kv => kv.1 ++ ":" ++ kv.2)
    have hs2 := List.sorted_insertionSort dataLe
      (c2.Dimensions.map fun kv => kv.1 ++ ":" ++ kv.2)
    exact List.eq_of_perm_of_sorted hp hs1 hs2
  rw [hk, hs, hsorted]

/-- Two `ExportCost` calls whose records share a key not previously in
the buffer merge into one buffered entry carrying the summed value and
the later record's fields (timestamp included). -/
theorem exportCost_merge (buffer : List (CostDataKey × CostData)) (c1 c2 : CostData)
    (hkey : c1.key = c2.key) (habs : goLookup buffer c1.key = none) :
    BufferingCostExporter.ExportCost (BufferingCostExporter.ExportCost buffer c1) c2 =
      buffer ++ [(c2.key, { c2 with Value := c2.Value + c1.Value })] := by
  rw [exportCost_seed buffer c1 habs]
  have hl : goLookup (buffer ++ [(c1.key, c1)]) c2.key = some c1 := by
    rw [← hkey]
    exact goLookup_append_singleton_self buffer c1.key c1 habs
  simp only [BufferingCostExporter.ExportCost, hl]
  rw [← hkey]
  exact goInsert_append_singleton buffer c1.key c1 _ habs

/-- Two `ExportCost` calls with distinct keys, starting from an empty
buffer, leave two distinct buffered entries. -/
theorem exportCost_distinct (c1 c2 : CostData) (hne : c1.key ≠ c2.key) :
    BufferingCostExporter.ExportCost (BufferingCostExporter.ExportCost [] c1) c2 =
      [(c1.key, c1), (c2.key, c2)] := by
  rw [exportCost_seed [] c1 rfl]
  simp only [List.nil_append]
  have habs : goLookup [(c1.key, c1)] c2.key = none := by
    simp [goLookup, hne]
  rw [exportCost_seed _ c2 habs]
  rfl

/-- Splitting at the first comma of each side: comma-free prefixes of
equal comma-separated character lists agree, as do the remainders. -/
theorem comma_list_split : ∀ (xa xb ya yb : List Char), ',' ∉ xa → ',' ∉ xb →
    xa ++ ',' :: ya = xb ++ ',' :: yb → xa = xb ∧ ya = yb
  | [], [], _, _, _, _, h => by
      simp only [List.nil_append, List.cons.injEq] at h
      exact ⟨rfl, h.2⟩
  | [], c :: xb', _, _, _, hb, h => by
      simp only [List.nil_append, List.cons_append, List.cons.injEq] at h
      rw [← h.1] at hb
      exact absurd (List.mem_cons_self _ _) hb
  | a :: xa', [], _, _, ha, _, h => by
      simp only [List.cons_append, List.nil_append, List.cons.injEq] at h
      rw [h.1] at ha
      exact absurd (List.mem_cons_self _ _) ha
  | a :: xa', b :: xb', ya, yb, ha, hb, h => by
      simp only [List.cons_append, List.cons.injEq] at h
      have ha' : ',' ∉ xa' := fun hm => ha (List.mem_cons.mpr (Or.inr hm))
      have hb' : ',' ∉ xb' := fun hm => hb (List.mem_cons.mpr (Or.inr hm))
      obtain ⟨e1, e2⟩ := comma_list_split xa' xb' ya yb ha' hb' h.2
      exact ⟨by rw [h.1, e1], e2⟩

/-- The characters of a comma-join with at least two parts. -/
theorem joinComma_data_cons (a b : String) (t : List String) :
    (joinComma (a :: b :: t)).data = a.data ++ ',' :: (joinComma (b :: t)).data := by
  show ((a ++ "," ++ joinComma (b :: t))).data = _
  rw [String.data_append, String.data_append]
  simp

/-- The comma-join is injective on equal-length lists of comma-free
strings. -/
theorem joinComma_inj : ∀ (l1 l2 : List String), l1.length = l2.length →
    (∀ s ∈ l1, commaFree s) → (∀ s ∈ l2, commaFree s) →
    joinComma l1 = joinComma l2 → l1 = l2
  | [], [], _, _, _, _ => rfl
  | [], _ :: _, hlen, _, _, _ => by simp at hlen
  | _ :: _, [], hlen, _, _, _ => by simp at hlen
  | [a], [b], _, _, _, h => by
      rw [show joinComma [a] = a from rfl, show joinComma [b] = b from rfl] at h
      rw [h]
  | [_], _ :: _ :: _, hlen, _, _, _ => by simp at hlen
  | _ :: _ :: _, [_], hlen, _, _, _ => by simp at hlen
  | a :: b :: t1, c :: d :: t2, hlen, h1, h2, h => by
      have hdata := congrArg String.data h
      rw [joinComma_data_cons, joinComma_data_cons] at hdata
      have ha : ',' ∉ a.data := h1 a (by simp)
      have hc : ',' ∉ c.data := h2 c (by simp)
      obtain ⟨e1, e2⟩ := comma_list_split a.data c.data _ _ ha hc hdata
      have hae : a = c := String.ext e1
      have hrec : joinComma (b :: t1) = joinComma (d :: t2) := String.ext e2
      have hlen2 : (b :: t1).length = (d :: t2).length := by simpa using hlen
      have htail := joinComma_inj (b :: t1) (d :: t2) hlen2
        (fun s hs => h1 s (List.mem_cons.mpr (Or.inr hs)))
        (fun s hs => h2 s (List.mem_cons.mpr (Or.inr hs))) hrec
      rw [hae, htail]

/-- Rendered dimension strings are comma-free when name and value are. -/
theorem commaFree_dimString (k v : String) (hk : commaFree k) (hv : commaFree v) :
    commaFree (k ++ ":" ++ v) := by
  unfold commaFree at *
  rw [String.data_append, String.data_append]
  intro hm
  rcases List.mem_append.mp hm with hm1 | hm2
  · rcases List.mem_append.mp hm1 with hk1 | hcolon
    · exact hk hk1
    · exact absurd hcolon (by decide)
  · exact hv hm2

/-- Two records of equal kind and strategy whose comma-free dimension
maps differ in exactly one value have distinct buffering keys: with
comma-free dimension strings the serialized key determines the sorted
dimension list, hence the dimension multiset, and multisets differing
in one element cannot be equal. -/
theorem costDataKey_ne_of_one_value_diff (c1 c2 : CostData)
    (pre post : List (String × String)) (k0 v1 v2 : String)
    (hd1 : c1.Dimensions = pre ++ (k0, v1) :: post)
    (hd2 : c2.Dimensions = pre ++ (k0, v2) :: post)
    (hne : v1 ≠ v2)
    (hcf1 : ∀ kv ∈ c1.Dimensions, commaFree kv.1 ∧ commaFree kv.2)
    (hcf2 : ∀ kv ∈ c2.Dimensions, commaFree kv.1 ∧ commaFree kv.2) :
    c1.key ≠ c2.key := by
  intro hkey
  have hdim : joinComma
        (List.insertionSort dataLe (c1.Dimensions.map fun kv => kv.1 ++ ":" ++ kv.2))
      = joinComma
        (List.insertionSort dataLe (c2.Dimensions.map fun kv => kv.1 ++ ":" ++ kv.2)) :=
    congrArg CostDataKey.Dimensions hkey
  have hel1 : ∀ s ∈ List.insertionSort dataLe
      (c1.Dimensions.map fun kv => kv.1 ++ ":" ++ kv.2), commaFree s := by
    intro s hs
    have hs2 := (List.perm_insertionSort dataLe _).mem_iff.mp hs
    obtain ⟨kv, hkv, rfl⟩ := List.mem_map.mp hs2
    exact commaFree_dimString kv.1 kv.2 (hcf1 kv hkv).1 (hcf1 kv hkv).2
  have hel2 : ∀ s ∈ List.insertionSort dataLe
      (c2.Dimensions.map fun kv => kv.1 ++ ":" ++ kv.2), commaFree s := by
    intro s hs
    have hs2 := (List.perm_insertionSort dataLe _).mem_iff.mp hs
    obtain ⟨kv, hkv, rfl⟩ := List.mem_map.mp hs2
    exact commaFree_dimString kv.1 kv.2 (hcf2 kv hkv).1 (hcf2 kv hkv).2
  have hlen : (List.insertionSort dataLe
        (c1.Dimensions.map fun kv => kv.1 ++ ":" ++ kv.2)).length
      = (List.insertionSort dataLe
        (c2.Dimensions.map fun kv => kv.1 ++ ":" ++ kv.2)).length := by
    rw [(List.perm_insertionSort dataLe _).length_eq, (List.perm_insertionSort dataLe _).length_eq]
    rw [List.length_map, List.length_map, hd1, hd2]
    simp
  have hsorted := joinComma_inj _ _ hlen hel1 hel2 hdim
  have hperm : List.Perm (c1.Dimensions.map fun kv => kv.1 ++ ":" ++ kv.2)
      (c2.Dimensions.map fun kv => kv.1 ++ ":" ++ kv.2) :=
    ((List.perm_insertionSort dataLe _).symm.trans
      (hsorted ▸ List.perm_insertionSort dataLe _))
  rw [hd1, hd2] at hperm
  simp only [List.map_append, List.map_cons] at hperm
  have hmid := (List.perm_middle.symm.trans (hperm.trans List.perm_middle))
  by_cases hfe : (k0 ++ ":" ++ v1) = (k0 ++ ":" ++ v2)
  · apply hne
    have hdata := congrArg String.data hfe
    rw [String.data_append, String.data_append] at hdata
    exact String.ext (List.append_cancel_left hdata)
  · have hx := hmid.count_eq (k0 ++ ":" ++ v2)
    rw [List.count_cons_of_ne (fun hh => hfe hh.symm), List.count_cons_self] at hx
    omega

/-- Counterexample to C2 as stated: the two colliding records have
equal kind and strategy and dimension maps over the same two keys that
differ in exactly one value (the value under the empty-string key), yet
their serialized keys coincide — the comma-join of the sorted "k:v"
strings is ambiguous when values contain ':' and ',' — so exporting
both leaves ONE merged buffered entry, not two distinct entries. -/
theorem C2_counterexample :
    collideRecordA.Kind = collideRecordB.Kind
    ∧ collideRecordA.Strategy = collideRecordB.Strategy
    ∧ collideDimsA.map Prod.fst = collideDimsB.map Prod.fst
    ∧ goLookup collideDimsA "" = some "a,:b"
    ∧ goLookup collideDimsB "" = some "b,:a"
    ∧ goLookup collideDimsA ":a," = goLookup collideDimsB ":a,"
    ∧ ("a,:b" : String) ≠ "b,:a"
    ∧ collideRecordA.key = collideRecordB.key
    ∧ (BufferingCostExporter.ExportCost
        (BufferingCostExporter.ExportCost [] collideRecordA) collideRecordB).length = 1 := by
  refine ⟨rfl, rfl, rfl, rfl, rfl, rfl, by decide, by decide, by decide⟩

/-- C2 (amended): a record whose key has no buffered entry seeds the
bucket as-is; two records with equal kind, equal strategy and equal
dimension maps (regardless of entry order) merge into a single
buffered entry whose value is the sum of both values and whose
remaining fields — the timestamp included — are the later record's;
and two such records differing in exactly one dimension value remain
two distinct buffered entries PROVIDED no dimension name or value
contains a comma (embedded separator characters can make two different
dimension maps serialize to the same key, as the counterexample
shows). -/
theorem C2_buffer_merge (buffer : List (CostDataKey × CostData)) (c1 c2 : CostData) :
    (goLookup buffer c1.key = none →
        BufferingCostExporter.ExportCost buffer c1 = buffer ++ [(c1.key, c1)])
    ∧ (c1.Kind = c2.Kind → c1.Strategy = c2.Strategy →
        List.Perm c1.Dimensions c2.Dimensions →
        goLookup buffer c1.key = none →
        c1.key = c2.key ∧
        BufferingCostExporter.ExportCost (BufferingCostExporter.ExportCost buffer c1) c2 =
          buffer ++ [(c2.key, { c2 with Value := c2.Value + c1.Value })])
    ∧ (∀ (pre post : List (String × String)) (k0 v1 v2 : String),
        c1.Dimensions = pre ++ (k0, v1) :: post →
        c2.Dimensions = pre ++ (k0, v2) :: post →
        v1 ≠ v2 →
        (∀ kv ∈ c1.Dimensions, commaFree kv.1 ∧ commaFree kv.2) →
        (∀ kv ∈ c2.Dimensions, commaFree kv.1 ∧ commaFree kv.2) →
        c1.key ≠ c2.key ∧
        BufferingCostExporter.ExportCost (BufferingCostExporter.ExportCost [] c1) c2 =
          [(c1.key, c1), (c2.key, c2)]) := by
  refine ⟨exportCost_seed buffer c1, fun hk hs hd habs => ?_, ?_⟩
  · have hkey := costDataKey_eq_of_perm c1 c2 hk hs hd
    exact ⟨hkey, exportCost_merge buffer c1 c2 hkey habs⟩
  · intro pre post k0 v1 v2 hd1 hd2 hne hcf1 hcf2
    have hkey := costDataKey_ne_of_one_value_diff c1 c2 pre post k0 v1 v2 hd1 hd2 hne hcf1 hcf2
    exact ⟨hkey, exportCost_distinct c1 c2 hkey⟩

/-- Witness for C2: the spec test's two records (values 5 and 3, equal
dimension maps arriving in different entry order) merge into one entry
with value 3 + 5 = 8 and the later timestamp. -/
theorem C2_witness :
    mergeRecordA.key = mergeRecordB.key ∧
    BufferingCostExporter.ExportCost
        (BufferingCostExporter.ExportCost [] mergeRecordA) mergeRecordB =
      [(mergeRecordB.key,
        { mergeRecordB with Value := mergeRecordB.Value + mergeRecordA.Value })] :=
  (C2_buffer_merge [] mergeRecordA mergeRecordB).2.1 rfl rfl (by decide) rfl

end Kostanza
